import Mathlib

/-!
Verification of the quantitative screening platform
(`Projeto Plataforma Quantitativa`): three screening variants (Fatores,
Magic Formula, Pagadoras de Dividendos), each in a v1 script and a v2
class-based script.  Numeric values are modelled by `ℚ`; provider data
that may be absent is modelled by `Option ℚ`.

The scripts delegate two operations to the pandas library:

* `Series.rank(ascending=False)` — fractional descending ranking with the
  default `method='average'` (ties receive the mean of the positions they
  would occupy).  It is modelled by `fracRankDesc` below via the standard
  average-rank formula.
* `DataFrame.sort_values(column)` — sorts rows by a key column.  Pandas'
  default algorithm leaves the relative order of tied keys unspecified, so
  theorems about sorted output are stated for an arbitrary sorted
  permutation; where a concrete executable model is needed the sort is
  instantiated with `List.insertionSort`, and nothing proved below about
  tied keys depends on that instantiation.
-/

/-- Number of entries of `xs` strictly greater than `v` (helper for the
pandas average-rank formula). -/
def countGtQ (xs : List ℚ) (v : ℚ) : ℕ :=
  xs.countP (fun x => decide (v < x))

/-- Number of entries of `xs` equal to `v`. -/
def countEqQ (xs : List ℚ) (v : ℚ) : ℕ :=
  xs.countP (fun x => decide (x = v))

/-- Model of `pandas.Series.rank(ascending=False)` with the default
`method='average'`: the fractional descending rank of value `v` within the
series `xs`.  A value beaten by `c` entries and tied with `e` entries
(itself included) occupies positions `c+1 … c+e` and receives their mean
`c + (e+1)/2`. -/
def fracRankDesc (xs : List ℚ) (v : ℚ) : ℚ :=
  (countGtQ xs v : ℚ) + ((countEqQ xs v : ℚ) + 1) / 2

/-- Descending order on `ℚ`, the sort key direction used by the ranking
(`ascending=False`). -/
def descRel (a b : ℚ) : Prop := b ≤ a

instance : DecidableRel descRel := fun a b => inferInstanceAs (Decidable (b ≤ a))

instance : IsTotal ℚ descRel := ⟨fun a b => le_total b a⟩

instance : IsTrans ℚ descRel := ⟨fun _ _ _ h1 h2 => le_trans h2 h1⟩

/-- A canonical descending arrangement of a component series, used to state
which positions a tied group occupies. -/
def sortedDesc (xs : List ℚ) : List ℚ := List.insertionSort descRel xs

/-- Arithmetic mean of a list of rationals. -/
def meanQ (l : List ℚ) : ℚ := l.sum / (l.length : ℚ)

/-! ### The batch ranking step shared by the Magic Formula and dividend
scripts: rank each component descending, average the per-component ranks,
sort by the combined rank (`sort_values('Combined_Rank')`) and assign dense
final ranks `index + 1`. -/

/-- Sort key used by `sort_values('Combined_Rank')`: compare rows by their
combined-rank value. -/
def byCombined {α : Type} (a b : α × ℚ) : Prop := a.2 ≤ b.2

instance {α : Type} : DecidableRel (byCombined (α := α)) := fun a b =>
  inferInstanceAs (Decidable (a.2 ≤ b.2))

instance {α : Type} : IsTotal (α × ℚ) byCombined := ⟨fun a b => le_total a.2 b.2⟩

instance {α : Type} : IsTrans (α × ℚ) byCombined := ⟨fun _ _ _ => le_trans⟩

/-- `reset_index` followed by `Final_Rank = index + 1`: attach the dense
final rank to each (row, combined-rank) pair in sorted order. -/
def finalizeRanks {α : Type} (ys : List (α × ℚ)) : List (α × ℚ × ℕ) :=
  ys.enum.map (fun p => (p.2.1, p.2.2, p.1 + 1))

/-- The processing statistics printed at the end of a run (total symbols,
included count, excluded count, and per-symbol exclusion reasons). -/
structure RunStats where
  total : ℕ
  included : ℕ
  excluded : ℕ
  details : List (String × List String)
deriving DecidableEq

namespace Fatores

/-- The four indicators read from the provider for `Carteira01 - USA
(Fatores).py`; any of them may be absent. -/
structure FactorInfo where
  trailingPE : Option ℚ
  returnOnEquity : Option ℚ
  debtToEquity : Option ℚ
  dividendYield : Option ℚ
deriving DecidableEq

/-- `calculate_score` of `Carteira01 - USA (Fatores).py`: `None` when any
indicator is absent, otherwise
`(-pe_ratio * 10) + (roe * 10) - (debt_to_equity / 10) + (dividend_yield * 100)`. -/
def calculate_score (info : FactorInfo) : Option ℚ :=
  match info.trailingPE, info.returnOnEquity, info.debtToEquity, info.dividendYield with
  | some pe, some roe, some dte, some dy =>
      some ((-pe * 10) + (roe * 10) - (dte / 10) + (dy * 100))
  | _, _, _, _ => none

end Fatores

namespace FatoresV2

/-- `StockScore` of `Carteira01 - USA (Fatores) - v2.py`. -/
structure StockScore where
  ticker : String
  score : ℚ
deriving DecidableEq

/-- `StockAnalyzer.calculate_score` of the v2 script: same formula as v1,
wrapped in a `StockScore`. -/
def calculate_score (ticker : String) (info : Fatores.FactorInfo) :
    Option StockScore :=
  match info.trailingPE, info.returnOnEquity, info.debtToEquity, info.dividendYield with
  | some pe, some roe, some dte, some dy =>
      some ⟨ticker, (-pe * 10) + (roe * 10) - (dte / 10) + (dy * 100)⟩
  | _, _, _, _ => none

/-- Sort key of `sort_values(by='Score', ascending=False)`. -/
def byScoreDesc (a b : String × ℚ) : Prop := b.2 ≤ a.2

instance : DecidableRel byScoreDesc := fun a b =>
  inferInstanceAs (Decidable (b.2 ≤ a.2))

instance : IsTotal (String × ℚ) byScoreDesc := ⟨fun a b => le_total b.2 a.2⟩

instance : IsTrans (String × ℚ) byScoreDesc := ⟨fun _ _ _ h1 h2 => le_trans h2 h1⟩

/-- `SP500Analyzer.run_analysis` together with `_prepare_results`, for a
given universe of (ticker, fundamentals) pairs: collect the symbols whose
score could be computed, sort by descending score, assign ranks
`index + 1` and keep the top 10 `(Rank, Ticker)` rows.  The complete
emitted artifact of this variant is this row list (plus timing); no
exclusion statistics are produced.  Excluded symbols only trigger a
per-symbol warning log line. -/
def run_analysis (univ : List (String × Fatores.FactorInfo)) :
    Option (List (ℕ × String)) :=
  let scores := univ.filterMap
    (fun p => (calculate_score p.1 p.2).map (fun s => (s.ticker, s.score)))
  if scores.isEmpty then none
  else
    some (((List.insertionSort byScoreDesc scores).enum.map
      (fun q => (q.1 + 1, q.2.1))).take 10)

end FatoresV2

namespace MagicFormulaV2

/-- The `StockData` `TypedDict` of `Carteira02 - USA (Magic Formula) - v2.py`;
each entry may be absent (`None`). -/
structure StockData where
  EBIT : Option ℚ
  Total_Assets : Option ℚ
  Current_Assets : Option ℚ
  Current_Liabilities : Option ℚ
  Market_Cap : Option ℚ
  Total_Debt : Option ℚ
  Total_Cash : Option ℚ
deriving DecidableEq

/-- The `StockResult` dataclass of the v2 script (the v1 script's result
dictionaries carry the same fields under the keys `Ticker`, `Status`,
`ROC`, `EarningsYield`, `Missing`). -/
structure StockResult where
  ticker : String
  status : String
  roc : Option ℚ
  earnings_yield : Option ℚ
  missing_data : List String
deriving DecidableEq

/-- `[k for k, v in financial_data.items() if v is None]`: the absent keys
in declaration order. -/
def missing_fields (d : StockData) : List String :=
  (if d.EBIT = none then ["EBIT"] else []) ++
  (if d.Total_Assets = none then ["Total_Assets"] else []) ++
  (if d.Current_Assets = none then ["Current_Assets"] else []) ++
  (if d.Current_Liabilities = none then ["Current_Liabilities"] else []) ++
  (if d.Market_Cap = none then ["Market_Cap"] else []) ++
  (if d.Total_Debt = none then ["Total_Debt"] else []) ++
  (if d.Total_Cash = none then ["Total_Cash"] else [])

/-- `MagicFormulaCalculator.calculate_metrics`: derived quantities and the
two divisions; the `ValueError("Division by zero in calculations")` raised
on a zero denominator is modelled by `none`. -/
def calculate_metrics (ebit ta ca cl mc td tc : ℚ) : Option (ℚ × ℚ) :=
  let net_fixed_assets := ta - ca
  let working_capital := ca - cl
  let enterprise_value := mc + td - tc
  if working_capital + net_fixed_assets = 0 ∨ enterprise_value = 0 then none
  else some (ebit / (working_capital + net_fixed_assets), ebit / enterprise_value)

/-- `StockAnalyzer.analyze_stock` of the v2 script: exclude listing the
absent keys when any metric is missing, otherwise compute the metrics,
turning the zero-denominator `ValueError` (caught by the generic handler)
into an exclusion whose reason is the exception text. -/
def analyze_stock (ticker : String) (d : StockData) : StockResult :=
  if missing_fields d = [] then
    match calculate_metrics (d.EBIT.getD 0) (d.Total_Assets.getD 0)
        (d.Current_Assets.getD 0) (d.Current_Liabilities.getD 0)
        (d.Market_Cap.getD 0) (d.Total_Debt.getD 0) (d.Total_Cash.getD 0) with
    | none => ⟨ticker, "Excluída", none, none, ["Division by zero in calculations"]⟩
    | some (roc, ey) => ⟨ticker, "Incluída", some roc, some ey, []⟩
  else ⟨ticker, "Excluída", none, none, missing_fields d⟩

/-- `[r for r in results if r.status == 'Incluída']`. -/
def includedResults (results : List StockResult) : List StockResult :=
  results.filter (fun r => r.status = "Incluída")

/-- `[r for r in results if r.status == 'Excluída']`. -/
def excludedResults (results : List StockResult) : List StockResult :=
  results.filter (fun r => r.status = "Excluída")

/-- The ranking columns of `ResultsProcessor.prepare_rankings`: each
included row paired with
`Combined_Rank = (ROC_Rank + EY_Rank) / 2`, the per-component ranks being
fractional descending ranks over the included rows' series. -/
def combinedRankRows (results : List StockResult) : List (StockResult × ℚ) :=
  let included := includedResults results
  let rocs := included.map (fun r => r.roc.getD 0)
  let eys := included.map (fun r => r.earnings_yield.getD 0)
  included.map (fun r =>
    (r, (fracRankDesc rocs (r.roc.getD 0)
          + fracRankDesc eys (r.earnings_yield.getD 0)) / 2))

/-- `ResultsProcessor.prepare_rankings`: `None` when no row is included,
otherwise the rows sorted by combined rank with dense final ranks
attached.  The tie order of `sort_values` is unspecified by pandas'
default algorithm; the executable model instantiates it with a sorted
permutation produced by insertion sort. -/
def prepare_rankings (results : List StockResult) :
    Option (List (StockResult × ℚ × ℕ)) :=
  if (includedResults results).isEmpty then none
  else some (finalizeRanks (List.insertionSort byCombined (combinedRankRows results)))

/-- The statistics block of `ResultsProcessor.print_results`, which runs
for every run (also when `prepare_rankings` returned `None`). -/
def run_statistics (results : List StockResult) : RunStats :=
  let excluded := excludedResults results
  ⟨results.length, results.length - excluded.length, excluded.length,
    excluded.map (fun r => (r.ticker, r.missing_data))⟩

end MagicFormulaV2

/-! ### Dividend scripts (`Carteira03`, v1 and v2) -/

/-- `sorted(set(years))`: the distinct calendar years present in the
payment-date list, ascending (identical in both dividend scripts). -/
def sortedUniqueYears (years : List ℕ) : List ℕ :=
  List.insertionSort (· ≤ ·) years.dedup

/-- The counting loop common to both dividend scripts:
`consecutive_years = 1`, then for each later entry of the ascending
distinct-year list add one while the year is exactly the predecessor plus
one, stopping at the first gap. -/
def consecRun : List ℕ → ℕ
  | [] => 0
  | [_] => 1
  | a :: b :: rest => if b = a + 1 then consecRun (b :: rest) + 1 else 1

/-- `DividendAnalyzer.calculate_consecutive_years` of the v2 script: 0 when
the dividend series is empty, otherwise the consecutive-year loop over the
ascending distinct years.  The input models the calendar years of the
entries of the payment-date series. -/
def calculate_consecutive_years (years : List ℕ) : ℕ :=
  if years = [] then 0 else consecRun (sortedUniqueYears years)

/-- Python's builtin `round` to the nearest integer: round half to even
(banker's rounding), modelled exactly over `ℚ`. -/
def roundHalfEven (q : ℚ) : ℤ :=
  if q - ⌊q⌋ < 1 / 2 then ⌊q⌋
  else if 1 / 2 < q - ⌊q⌋ then ⌊q⌋ + 1
  else if Even ⌊q⌋ then ⌊q⌋ else ⌊q⌋ + 1

/-- Python's `round(x, 2)` as used on the dividend-yield percentage.
(Binary floating-point representation error of the Python runtime is not
modelled; the concrete inputs used below sit away from representation
boundaries.) -/
def pyRound2 (q : ℚ) : ℚ := (roundHalfEven (q * 100) : ℚ) / 100

namespace DividendsV2

/-- The provider `info` fields read by
`Carteira03 - USA (Pagadoras de Dividendos) - v2.py`; each may be absent. -/
structure RawInfo where
  dividendYield : Option ℚ
  currentPrice : Option ℚ
  shortName : Option String
  sector : Option String
deriving DecidableEq

/-- The `StockInfo` produced by `DividendAnalyzer.get_stock_info`. -/
structure StockInfo where
  dividend_yield : ℚ
  current_price : ℚ
  short_name : String
  sector : String
deriving DecidableEq

/-- `DividendAnalyzer.get_stock_info`:
`dividend_yield = info.get("dividendYield", 0) * 100`,
`current_price = info.get("currentPrice", 0)`, defaults `"N/A"` for the
name and sector. -/
def get_stock_info (info : RawInfo) : StockInfo :=
  ⟨info.dividendYield.getD 0 * 100, info.currentPrice.getD 0,
    info.shortName.getD "N/A", info.sector.getD "N/A"⟩

/-- The `DividendResult` dataclass of the v2 script (the v1 script's result
dictionaries carry the same fields). -/
structure DividendResult where
  ticker : String
  status : String
  name : Option String
  sector : Option String
  current_price : Option ℚ
  dividend_yield : Option ℚ
  consecutive_years : Option ℕ
  missing_data : List String
deriving DecidableEq

/-- `StockAnalyzer.analyze_stock` of the v2 script: exclusion when the
basic info is unavailable or when `dividend_yield == 0 or
current_price == 0`; otherwise Included with the yield percentage rounded
to two decimals and the consecutive-years count of the payment history
(`histYears` models the calendar years of the dividend series entries;
note that an empty history is not checked here, it reaches
`calculate_consecutive_years`, which returns 0). -/
def analyze_stock (ticker : String) (si : Option StockInfo)
    (histYears : List ℕ) : DividendResult :=
  match si with
  | none =>
      ⟨ticker, "Excluída", none, none, none, none, none,
        ["Dados básicos não disponíveis"]⟩
  | some s =>
      if s.dividend_yield = 0 ∨ s.current_price = 0 then
        ⟨ticker, "Excluída", none, none, none, none, none,
          ["Dados insuficientes de dividendos"]⟩
      else
        ⟨ticker, "Incluída", some s.short_name, some s.sector,
          some s.current_price, some (pyRound2 s.dividend_yield),
          some (calculate_consecutive_years histYears), []⟩

/-- `[r for r in results if r.status == 'Incluída']`. -/
def includedResults (results : List DividendResult) : List DividendResult :=
  results.filter (fun r => r.status = "Incluída")

/-- `[r for r in results if r.status == 'Excluída']`. -/
def excludedResults (results : List DividendResult) : List DividendResult :=
  results.filter (fun r => r.status = "Excluída")

/-- The ranking columns of the v2 `ResultsProcessor.prepare_rankings` (the
v1 `main` computes the same columns): each included row paired with
`Combined_Rank = (Yield_Rank + Years_Rank) / 2`, both fractional
descending ranks, the yield component being the stored (rounded)
percentage. -/
def combinedRankRows (results : List DividendResult) :
    List (DividendResult × ℚ) :=
  let included := includedResults results
  let yields := included.map (fun r => r.dividend_yield.getD 0)
  let years := included.map (fun r => ((r.consecutive_years.getD 0 : ℕ) : ℚ))
  included.map (fun r =>
    (r, (fracRankDesc yields (r.dividend_yield.getD 0)
          + fracRankDesc years ((r.consecutive_years.getD 0 : ℕ) : ℚ)) / 2))

/-- `ResultsProcessor.prepare_rankings` of the v2 dividend script. -/
def prepare_rankings (results : List DividendResult) :
    Option (List (DividendResult × ℚ × ℕ)) :=
  if (includedResults results).isEmpty then none
  else some (finalizeRanks (List.insertionSort byCombined (combinedRankRows results)))

/-- The statistics block of the v2 `ResultsProcessor.print_results`. -/
def run_statistics (results : List DividendResult) : RunStats :=
  let excluded := excludedResults results
  ⟨results.length, results.length - excluded.length, excluded.length,
    excluded.map (fun r => (r.ticker, r.missing_data))⟩

end DividendsV2

namespace Dividends

/-- `calculate_yield_and_dividend_years` of
`Carteira03 - USA (Pagadoras de Dividendos).py`: the v1 script excludes
when the payment history is empty, the yield is 0 or the price is 0, and
otherwise runs the consecutive-years loop on the (non-empty) history and
rounds the yield percentage. -/
def calculate_yield_and_dividend_years (ticker : String)
    (info : DividendsV2.RawInfo) (divYears : List ℕ) :
    DividendsV2.DividendResult :=
  let dividend_yield := info.dividendYield.getD 0 * 100
  let current_price := info.currentPrice.getD 0
  if divYears = [] ∨ dividend_yield = 0 ∨ current_price = 0 then
    ⟨ticker, "Excluída", none, none, none, none, none, ["Dados insuficientes"]⟩
  else
    ⟨ticker, "Incluída", some (info.shortName.getD "N/A"),
      some (info.sector.getD "N/A"), some current_price,
      some (pyRound2 dividend_yield),
      some (consecRun (sortedUniqueYears divYears)), []⟩

end Dividends

namespace MagicFormula

/-- `main` of `Carteira02 - USA (Magic Formula).py` after all per-symbol
results are collected: only when at least one symbol is included does the
script build the ranking table (the same ranking computation as the v2
`prepare_rankings`) and print the statistics block; otherwise it prints a
no-data message and returns `None` without emitting any statistics. -/
def main_model (results : List MagicFormulaV2.StockResult) :
    Option (List (MagicFormulaV2.StockResult × ℚ × ℕ) × RunStats) :=
  let included := MagicFormulaV2.includedResults results
  let excluded := MagicFormulaV2.excludedResults results
  if included.length > 0 then
    some (finalizeRanks
        (List.insertionSort byCombined (MagicFormulaV2.combinedRankRows results)),
      ⟨results.length, included.length, excluded.length,
        excluded.map (fun r => (r.ticker, r.missing_data))⟩)
  else none

end MagicFormula

/-- In a descending-sorted list, a predicate that is upward closed along the
order (`b ≤ a → p b → p a`) holds exactly on an initial segment of indices,
whose length is the `countP` of the predicate. -/
theorem sorted_desc_countP (p : ℚ → Bool)
    (hp : ∀ a b : ℚ, b ≤ a → p b = true → p a = true) :
    ∀ (ys : List ℚ), List.Sorted descRel ys → ∀ (j : ℕ) (hj : j < ys.length),
      (p (ys.get ⟨j, hj⟩) = true ↔ j < ys.countP p)
  | [], _, j, hj => by simp at hj
  | y :: ys, hs, j, hj => by
    have hy : ∀ b ∈ ys, b ≤ y := (List.sorted_cons.mp hs).1
    have hs' : List.Sorted descRel ys := (List.sorted_cons.mp hs).2
    by_cases hpy : p y = true
    · cases j with
      | zero => simp [List.countP_cons, hpy]
      | succ i =>
        have hi : i < ys.length := by simpa using hj
        have ih := sorted_desc_countP p hp ys hs' i hi
        simpa [List.countP_cons, hpy, Nat.succ_lt_succ_iff] using ih
    · have hz : ys.countP p = 0 := by
        rw [List.countP_eq_zero]
        intro b hb hpb
        exact hpy (hp y b (hy b hb) hpb)
      cases j with
      | zero => simp [List.countP_cons, hpy, hz]
      | succ i =>
        have hi : i < ys.length := by simpa using hj
        have hne : ¬ p (ys.get ⟨i, hi⟩) = true := fun hpi =>
          hpy (hp y _ (hy _ (ys.get_mem i hi)) hpi)
        simp [List.countP_cons, hpy, hz]
        exact Bool.eq_false_iff.mpr hne

/-- Counting `v ≤ x` splits into counting `v < x` and counting `x = v`. -/
theorem countP_le_split : ∀ (xs : List ℚ) (v : ℚ),
    xs.countP (fun x => decide (v ≤ x)) = countGtQ xs v + countEqQ xs v
  | [], _ => rfl
  | a :: xs, v => by
    have ih := countP_le_split xs v
    rcases lt_trichotomy v a with h | h | h
    · have h1 : v ≤ a := le_of_lt h
      have h2 : ¬ a = v := fun he => absurd (he ▸ h) (lt_irrefl _)
      simp [countGtQ, countEqQ, List.countP_cons, h, h1, h2] at ih ⊢
      omega
    · have h1 : v ≤ a := le_of_eq h
      have h2 : ¬ v < a := by simp [h]
      simp [countGtQ, countEqQ, List.countP_cons, h1, h2, h.symm] at ih ⊢
      omega
    · have h1 : ¬ v ≤ a := not_le.mpr h
      have h2 : ¬ v < a := by
        intro hc
        exact absurd (lt_trans h hc) (lt_irrefl _)
      have h3 : ¬ a = v := fun he => absurd (he ▸ h) (lt_irrefl _)
      simp [countGtQ, countEqQ, List.countP_cons, h1, h2, h3] at ih ⊢
      omega

/-- Sum of the `e` consecutive rational values starting at `x`. -/
theorem sum_range_shifted (x : ℚ) : ∀ e : ℕ,
    ((List.range e).map (fun i : ℕ => x + (i : ℚ))).sum
      = (e : ℚ) * x + (e : ℚ) * ((e : ℚ) - 1) / 2
  | 0 => by simp
  | e + 1 => by
    have ih := sum_range_shifted x e
    rw [List.range_succ, List.map_append, List.sum_append]
    simp [ih]
    ring

theorem finalize_map_rank {α : Type} (ys : List (α × ℚ)) :
    (finalizeRanks ys).map (fun t => t.2.2) = List.range' 1 ys.length := by
  rw [finalizeRanks, List.map_map]
  have h1 : ((fun (t : α × ℚ × ℕ) => t.2.2)
        ∘ (fun p : ℕ × (α × ℚ) => (p.2.1, p.2.2, p.1 + 1)))
      = (fun n => n + 1) ∘ Prod.fst := rfl
  rw [h1, ← List.map_map, List.enum_map_fst, List.range'_eq_map_range]
  exact List.map_congr_left (fun i _ => Nat.add_comm i 1)

theorem finalize_map_row {α : Type} (ys : List (α × ℚ)) :
    (finalizeRanks ys).map (fun t => t.1) = ys.map Prod.fst := by
  rw [finalizeRanks, List.map_map]
  have h1 : ((fun (t : α × ℚ × ℕ) => t.1)
        ∘ (fun p : ℕ × (α × ℚ) => (p.2.1, p.2.2, p.1 + 1)))
      = Prod.fst ∘ Prod.snd := rfl
  rw [h1, ← List.map_map, List.enum_map_snd]

theorem finalize_map_combined {α : Type} (ys : List (α × ℚ)) :
    (finalizeRanks ys).map (fun t => t.2.1) = ys.map Prod.snd := by
  rw [finalizeRanks, List.map_map]
  have h1 : ((fun (t : α × ℚ × ℕ) => t.2.1)
        ∘ (fun p : ℕ × (α × ℚ) => (p.2.1, p.2.2, p.1 + 1)))
      = Prod.snd ∘ Prod.snd := rfl
  rw [h1, ← List.map_map, List.enum_map_snd]

theorem pair_mem_of_mem_finalize {α : Type} (ys : List (α × ℚ))
    (t : α × ℚ × ℕ) (ht : t ∈ finalizeRanks ys) : (t.1, t.2.1) ∈ ys := by
  rw [finalizeRanks] at ht
  rcases List.mem_map.mp ht with ⟨p, hp, he⟩
  have hmem : p.2 ∈ ys := by
    have h2 := List.mem_map_of_mem Prod.snd hp
    rwa [List.enum_map_snd] at h2
  rw [← he]
  simpa using hmem

theorem meanQ_pair (a b : ℚ) : meanQ [a, b] = (a + b) / 2 := by
  simp [meanQ]

theorem combinedRankRows_map_fst (results : List MagicFormulaV2.StockResult) :
    (MagicFormulaV2.combinedRankRows results).map Prod.fst
      = MagicFormulaV2.includedResults results := by
  simp only [MagicFormulaV2.combinedRankRows, List.map_map]
  exact List.map_id _

theorem combinedRankRows_length (results : List MagicFormulaV2.StockResult) :
    (MagicFormulaV2.combinedRankRows results).length
      = (MagicFormulaV2.includedResults results).length := by
  simp [MagicFormulaV2.combinedRankRows]

theorem dividends_combinedRankRows_map_fst
    (results : List DividendsV2.DividendResult) :
    (DividendsV2.combinedRankRows results).map Prod.fst
      = DividendsV2.includedResults results := by
  simp only [DividendsV2.combinedRankRows, List.map_map]
  exact List.map_id _

theorem dividends_combinedRankRows_length
    (results : List DividendsV2.DividendResult) :
    (DividendsV2.combinedRankRows results).length
      = (DividendsV2.includedResults results).length := by
  simp [DividendsV2.combinedRankRows]

theorem mf_row_included (results : List MagicFormulaV2.StockResult)
    (rows : List (MagicFormulaV2.StockResult × ℚ × ℕ))
    (hrows : MagicFormulaV2.prepare_rankings results = some rows)
    (t : MagicFormulaV2.StockResult × ℚ × ℕ) (ht : t ∈ rows) :
    t.1 ∈ results ∧ t.1.status = "Incluída" := by
  rw [MagicFormulaV2.prepare_rankings] at hrows
  by_cases hemp : (MagicFormulaV2.includedResults results).isEmpty
  · rw [if_pos hemp] at hrows
    exact absurd hrows (by simp)
  · rw [if_neg hemp] at hrows
    have he := Option.some.inj hrows
    rw [← he] at ht
    have hpair := (List.perm_insertionSort byCombined _).subset
      (pair_mem_of_mem_finalize _ t ht)
    have h2 := List.mem_map_of_mem Prod.fst hpair
    rw [combinedRankRows_map_fst] at h2
    rw [MagicFormulaV2.includedResults] at h2
    rcases List.mem_filter.mp h2 with ⟨hmem, hstat⟩
    exact ⟨hmem, by simpa using hstat⟩

theorem div_row_included (results : List DividendsV2.DividendResult)
    (rows : List (DividendsV2.DividendResult × ℚ × ℕ))
    (hrows : DividendsV2.prepare_rankings results = some rows)
    (t : DividendsV2.DividendResult × ℚ × ℕ) (ht : t ∈ rows) :
    t.1 ∈ results ∧ t.1.status = "Incluída" := by
  rw [DividendsV2.prepare_rankings] at hrows
  by_cases hemp : (DividendsV2.includedResults results).isEmpty
  · rw [if_pos hemp] at hrows
    exact absurd hrows (by simp)
  · rw [if_neg hemp] at hrows
    have he := Option.some.inj hrows
    rw [← he] at ht
    have hpair := (List.perm_insertionSort byCombined _).subset
      (pair_mem_of_mem_finalize _ t ht)
    have h2 := List.mem_map_of_mem Prod.fst hpair
    rw [dividends_combinedRankRows_map_fst] at h2
    rw [DividendsV2.includedResults] at h2
    rcases List.mem_filter.mp h2 with ⟨hmem, hstat⟩
    exact ⟨hmem, by simpa using hstat⟩

theorem fatores_calculate_score_ticker (t : String) (i : Fatores.FactorInfo)
    (s : FatoresV2.StockScore) (h : FatoresV2.calculate_score t i = some s) :
    s.ticker = t := by
  rcases i with ⟨o1, o2, o3, o4⟩
  cases o1 <;> cases o2 <;> cases o3 <;> cases o4 <;>
    simp_all [FatoresV2.calculate_score]
  rw [← h]

theorem fatores_row_ticker (univ : List (String × Fatores.FactorInfo))
    (rows : List (ℕ × String)) (hrows : FatoresV2.run_analysis univ = some rows)
    (x : ℕ × String) (hx : x ∈ rows) :
    ∃ p ∈ univ, (∃ s, FatoresV2.calculate_score p.1 p.2 = some s) ∧ p.1 = x.2 := by
  simp only [FatoresV2.run_analysis] at hrows
  by_cases hemp : (univ.filterMap (fun p =>
      (FatoresV2.calculate_score p.1 p.2).map (fun s => (s.ticker, s.score)))).isEmpty
  · rw [if_pos hemp] at hrows
    exact absurd hrows (by simp)
  · rw [if_neg hemp] at hrows
    have he := Option.some.inj hrows
    rw [← he] at hx
    have hx1 := List.mem_of_mem_take hx
    rcases List.mem_map.mp hx1 with ⟨q, hq, hqe⟩
    have hq2 : q.2 ∈ List.insertionSort FatoresV2.byScoreDesc
        (univ.filterMap (fun p =>
          (FatoresV2.calculate_score p.1 p.2).map (fun s => (s.ticker, s.score)))) := by
      have h3 := List.mem_map_of_mem Prod.snd hq
      rwa [List.enum_map_snd] at h3
    have hq3 := (List.perm_insertionSort _ _).subset hq2
    rcases List.mem_filterMap.mp hq3 with ⟨p, hp, hpe⟩
    rcases Option.map_eq_some'.mp hpe with ⟨s, hs, hse⟩
    refine ⟨p, hp, ⟨s, hs⟩, ?_⟩
    have ht1 : s.ticker = p.1 := fatores_calculate_score_ticker p.1 p.2 s hs
    have ht2 : x.2 = q.2.1 := by rw [← hqe]
    rw [ht2, ← hse]
    exact ht1.symm

theorem consecRun_le_length : ∀ l : List ℕ, consecRun l ≤ l.length
  | [] => by simp [consecRun]
  | [_] => by simp [consecRun]
  | a :: b :: rest => by
    have ih := consecRun_le_length (b :: rest)
    by_cases hb : b = a + 1
    · simp only [consecRun, if_pos hb, List.length_cons] at ih ⊢
      omega
    · simp only [consecRun, if_neg hb, List.length_cons]
      omega

theorem consecRun_pos : ∀ (a : ℕ) (l : List ℕ), 1 ≤ consecRun (a :: l)
  | _, [] => le_refl 1
  | a, b :: rest => by
    by_cases hb : b = a + 1
    · simp only [consecRun, if_pos hb]
      omega
    · simp only [consecRun, if_neg hb]
      omega

theorem consecRun_getD : ∀ l : List ℕ, ∀ i, i < consecRun l →
    l.getD i 0 = l.getD 0 0 + i
  | [], i, hi => by simp [consecRun] at hi
  | [a], i, hi => by
    simp only [consecRun] at hi
    interval_cases i
    simp
  | a :: b :: rest, i, hi => by
    by_cases hb : b = a + 1
    · simp only [consecRun, if_pos hb] at hi
      cases i with
      | zero => simp
      | succ j =>
        have hj : j < consecRun (b :: rest) := by omega
        have ih := consecRun_getD (b :: rest) j hj
        simp only [List.getD_cons_succ, List.getD_cons_zero] at ih ⊢
        omega
    · simp only [consecRun, if_neg hb] at hi
      have : i = 0 := by omega
      subst this
      simp

theorem consecRun_gap : ∀ l : List ℕ, consecRun l < l.length →
    l.getD (consecRun l) 0 ≠ l.getD 0 0 + consecRun l
  | [] => by simp [consecRun]
  | [a] => by simp [consecRun]
  | a :: b :: rest => by
    intro hlt
    by_cases hb : b = a + 1
    · simp only [consecRun, if_pos hb, List.length_cons] at hlt ⊢
      have hlt2 : consecRun (b :: rest) < (b :: rest).length := by
        simp only [List.length_cons]
        omega
      have ih := consecRun_gap (b :: rest) hlt2
      simp only [List.getD_cons_succ, List.getD_cons_zero] at ih ⊢
      omega
    · simp only [consecRun, if_neg hb, List.getD_cons_succ, List.getD_cons_zero]
      simpa using hb

/-- C1: for every declared rank component (a series `xs` of component values
over the Included symbols) and every value `v` occurring in it, the
fractional descending rank implements the average method: it equals the
arithmetic mean of the positions `c+1 … c+e` that the tied group of `v`
occupies (where `c` counts strictly greater entries and `e` the entries
equal to `v`); those are exactly the positions holding value `v` in the
descending-sorted arrangement; a strictly highest value receives rank 1;
and two symbols tied for the best value in `[5, 5, 3]` receive rank 1.5
each while the strictly lower third receives rank 3. -/
theorem c1_fractional_rank_average (xs : List ℚ) (v : ℚ) (hv : v ∈ xs) :
    fracRankDesc xs v
        = ((List.range (countEqQ xs v)).map
            (fun i : ℕ => ((countGtQ xs v : ℚ) + 1) + (i : ℚ))).sum
          / (countEqQ xs v : ℚ) ∧
    (∀ (j : ℕ) (hj : j < (sortedDesc xs).length),
        ((sortedDesc xs).get ⟨j, hj⟩ = v
          ↔ countGtQ xs v ≤ j ∧ j < countGtQ xs v + countEqQ xs v)) ∧
    ((∀ w ∈ xs, w ≠ v → w < v) → countEqQ xs v = 1 → fracRankDesc xs v = 1) ∧
    fracRankDesc [(5 : ℚ), 5, 3] 5 = 3 / 2 ∧
    fracRankDesc [(5 : ℚ), 5, 3] 3 = 3 := by
  have hepos : 0 < countEqQ xs v := by
    rw [countEqQ, List.countP_pos_iff]
    exact ⟨v, hv, by simp⟩
  refine ⟨?_, ?_, ?_, ?_, ?_⟩
  · rw [sum_range_shifted ((countGtQ xs v : ℚ) + 1) (countEqQ xs v)]
    have he : ((countEqQ xs v : ℚ)) ≠ 0 := Nat.cast_ne_zero.mpr hepos.ne'
    rw [fracRankDesc]
    field_simp
    ring
  · intro j hj
    have hsorted : List.Sorted descRel (sortedDesc xs) :=
      List.sorted_insertionSort descRel xs
    have hperm : (sortedDesc xs).Perm xs := List.perm_insertionSort descRel xs
    have hcnt1 : (sortedDesc xs).countP (fun x => decide (v < x)) = countGtQ xs v :=
      hperm.countP_eq _
    have hcnt2 : (sortedDesc xs).countP (fun x => decide (v ≤ x))
        = countGtQ xs v + countEqQ xs v :=
      (hperm.countP_eq _).trans (countP_le_split xs v)
    have i1 := sorted_desc_countP (fun x => decide (v < x))
      (by
        intro a b hba hb
        simp only [decide_eq_true_eq] at hb ⊢
        exact lt_of_lt_of_le hb hba)
      (sortedDesc xs) hsorted j hj
    have i2 := sorted_desc_countP (fun x => decide (v ≤ x))
      (by
        intro a b hba hb
        simp only [decide_eq_true_eq] at hb ⊢
        exact le_trans hb hba)
      (sortedDesc xs) hsorted j hj
    rw [hcnt1] at i1
    rw [hcnt2] at i2
    simp only [decide_eq_true_eq] at i1 i2
    constructor
    · intro hget
      refine ⟨?_, i2.mp (le_of_eq hget.symm)⟩
      by_contra hcj
      push_neg at hcj
      exact absurd (hget ▸ i1.mpr hcj) (lt_irrefl v)
    · rintro ⟨h1, h2⟩
      have hle : v ≤ (sortedDesc xs).get ⟨j, hj⟩ := i2.mpr h2
      have hnlt : ¬ v < (sortedDesc xs).get ⟨j, hj⟩ := fun hc =>
        absurd (i1.mp hc) (not_lt.mpr h1)
      exact le_antisymm (not_lt.mp hnlt) hle
  · intro hmax he1
    have hc : countGtQ xs v = 0 := by
      rw [countGtQ, List.countP_eq_zero]
      intro a ha
      simp only [decide_eq_true_eq, not_lt]
      by_cases hav : a = v
      · exact le_of_eq hav
      · exact le_of_lt (hmax a ha hav)
    rw [fracRankDesc, hc, he1]
    norm_num
  · norm_num [fracRankDesc, countGtQ, countEqQ, List.countP_cons]
  · norm_num [fracRankDesc, countGtQ, countEqQ, List.countP_cons]

/-- Witness for C1: instantiation at the concrete series `[5, 5, 3]` with
`v = 5`, evaluating the tied-for-best rank to 1.5. -/
theorem c1_fractional_rank_average_witness :
    fracRankDesc [(5 : ℚ), 5, 3] 5 = 3 / 2 :=
  (c1_fractional_rank_average [(5 : ℚ), 5, 3] 5 (by norm_num)).2.2.2.1

/-- C2: for every run with `K ≥ 1` Included symbols, each included row's
combined rank is the arithmetic mean of its fractional descending ranks
over the model's two declared components, and for any sorted arrangement
`ys` of the ranked rows (any tie order of `sort_values` is admissible) the
final dense ranks are exactly `1 .. K`, attached in ascending order of
combined-rank value, over exactly the Included rows; `prepare_rankings`
returns such an arrangement rather than `None`.  The first five conjuncts
state this for the Magic Formula ranking engine, the last conjunct for the
identically-structured dividend ranking engine. -/
theorem c2_combined_mean_dense_ranks (results : List MagicFormulaV2.StockResult)
    (ys : List (MagicFormulaV2.StockResult × ℚ))
    (hperm : ys.Perm (MagicFormulaV2.combinedRankRows results))
    (hsort : List.Sorted byCombined ys)
    (hK : 1 ≤ (MagicFormulaV2.includedResults results).length) :
    (finalizeRanks ys).map (fun t => t.2.2)
        = List.range' 1 (MagicFormulaV2.includedResults results).length ∧
    ((finalizeRanks ys).map (fun t => t.1)).Perm
        (MagicFormulaV2.includedResults results) ∧
    List.Sorted (· ≤ ·) ((finalizeRanks ys).map (fun t => t.2.1)) ∧
    (∀ t ∈ finalizeRanks ys,
        t.2.1 = meanQ
          [fracRankDesc
              ((MagicFormulaV2.includedResults results).map (fun r => r.roc.getD 0))
              (t.1.roc.getD 0),
           fracRankDesc
              ((MagicFormulaV2.includedResults results).map
                (fun r => r.earnings_yield.getD 0))
              (t.1.earnings_yield.getD 0)]) ∧
    MagicFormulaV2.prepare_rankings results
        = some (finalizeRanks
            (List.insertionSort byCombined (MagicFormulaV2.combinedRankRows results))) ∧
    (∀ (resultsD : List DividendsV2.DividendResult)
        (ysD : List (DividendsV2.DividendResult × ℚ)),
        ysD.Perm (DividendsV2.combinedRankRows resultsD) →
        List.Sorted byCombined ysD →
        1 ≤ (DividendsV2.includedResults resultsD).length →
        (finalizeRanks ysD).map (fun t => t.2.2)
            = List.range' 1 (DividendsV2.includedResults resultsD).length ∧
        ((finalizeRanks ysD).map (fun t => t.1)).Perm
            (DividendsV2.includedResults resultsD) ∧
        List.Sorted (· ≤ ·) ((finalizeRanks ysD).map (fun t => t.2.1)) ∧
        (∀ t ∈ finalizeRanks ysD,
            t.2.1 = meanQ
              [fracRankDesc
                  ((DividendsV2.includedResults resultsD).map
                    (fun r => r.dividend_yield.getD 0))
                  (t.1.dividend_yield.getD 0),
               fracRankDesc
                  ((DividendsV2.includedResults resultsD).map
                    (fun r => ((r.consecutive_years.getD 0 : ℕ) : ℚ)))
                  ((t.1.consecutive_years.getD 0 : ℕ) : ℚ)]) ∧
        DividendsV2.prepare_rankings resultsD
            = some (finalizeRanks (List.insertionSort byCombined
                (DividendsV2.combinedRankRows resultsD)))) := by
  have hlen : ys.length = (MagicFormulaV2.includedResults results).length :=
    hperm.length_eq.trans (combinedRankRows_length results)
  refine ⟨?_, ?_, ?_, ?_, ?_, ?_⟩
  · rw [finalize_map_rank, hlen]
  · rw [finalize_map_row]
    exact (hperm.map Prod.fst).trans
      (combinedRankRows_map_fst results ▸ List.Perm.refl _)
  · rw [finalize_map_combined]
    exact List.Pairwise.map (fun t : MagicFormulaV2.StockResult × ℚ => t.2)
      (fun a b h => h) hsort
  · intro t ht
    have hpair : (t.1, t.2.1) ∈ MagicFormulaV2.combinedRankRows results :=
      hperm.subset (pair_mem_of_mem_finalize ys t ht)
    rw [MagicFormulaV2.combinedRankRows] at hpair
    rcases List.mem_map.mp hpair with ⟨r, hr, he⟩
    have h1 : r = t.1 := congrArg Prod.fst he
    have h2 : t.2.1
        = (fracRankDesc
            ((MagicFormulaV2.includedResults results).map (fun x => x.roc.getD 0))
            (r.roc.getD 0)
          + fracRankDesc
            ((MagicFormulaV2.includedResults results).map
              (fun x => x.earnings_yield.getD 0))
            (r.earnings_yield.getD 0)) / 2 := (congrArg Prod.snd he).symm
    rw [meanQ_pair, h2, h1]
  · have hne : (MagicFormulaV2.includedResults results).isEmpty = false := by
      cases hcase : MagicFormulaV2.includedResults results with
      | nil => rw [hcase] at hK; simp at hK
      | cons a l => simp
    simp [MagicFormulaV2.prepare_rankings, hne]
  · intro resultsD ysD hpermD hsortD hKD
    have hlenD : ysD.length = (DividendsV2.includedResults resultsD).length :=
      hpermD.length_eq.trans (dividends_combinedRankRows_length resultsD)
    refine ⟨?_, ?_, ?_, ?_, ?_⟩
    · rw [finalize_map_rank, hlenD]
    · rw [finalize_map_row]
      exact (hpermD.map Prod.fst).trans
        (dividends_combinedRankRows_map_fst resultsD ▸ List.Perm.refl _)
    · rw [finalize_map_combined]
      exact List.Pairwise.map (fun t : DividendsV2.DividendResult × ℚ => t.2)
        (fun a b h => h) hsortD
    · intro t ht
      have hpair : (t.1, t.2.1) ∈ DividendsV2.combinedRankRows resultsD :=
        hpermD.subset (pair_mem_of_mem_finalize ysD t ht)
      rw [DividendsV2.combinedRankRows] at hpair
      rcases List.mem_map.mp hpair with ⟨r, hr, he⟩
      have h1 : r = t.1 := congrArg Prod.fst he
      have h2 : t.2.1
          = (fracRankDesc
              ((DividendsV2.includedResults resultsD).map
                (fun x => x.dividend_yield.getD 0))
              (r.dividend_yield.getD 0)
            + fracRankDesc
              ((DividendsV2.includedResults resultsD).map
                (fun x => ((x.consecutive_years.getD 0 : ℕ) : ℚ)))
              ((r.consecutive_years.getD 0 : ℕ) : ℚ)) / 2 :=
        (congrArg Prod.snd he).symm
      rw [meanQ_pair, h2, h1]
    · have hneD : (DividendsV2.includedResults resultsD).isEmpty = false := by
        cases hcase : DividendsV2.includedResults resultsD with
        | nil => rw [hcase] at hKD; simp at hKD
        | cons a l => simp
      simp [DividendsV2.prepare_rankings, hneD]

/-- Witness for C2: a concrete run with two Included symbols and one
Excluded symbol; the sorted arrangement produced by the executable
`prepare_rankings` carries ascending combined ranks. -/
theorem c2_combined_mean_dense_ranks_witness :
    (finalizeRanks (List.insertionSort byCombined
        (MagicFormulaV2.combinedRankRows
          [⟨"A", "Incluída", some 1, some 2, []⟩,
           ⟨"B", "Incluída", some 3, some 1, []⟩,
           ⟨"C", "Excluída", none, none, ["EBIT"]⟩]))).map (fun t => t.2.2)
      = List.range' 1 (MagicFormulaV2.includedResults
          [⟨"A", "Incluída", some 1, some 2, []⟩,
           ⟨"B", "Incluída", some 3, some 1, []⟩,
           ⟨"C", "Excluída", none, none, ["EBIT"]⟩]).length :=
  (c2_combined_mean_dense_ranks
    [⟨"A", "Incluída", some 1, some 2, []⟩,
     ⟨"B", "Incluída", some 3, some 1, []⟩,
     ⟨"C", "Excluída", none, none, ["EBIT"]⟩] _
    (List.perm_insertionSort byCombined _)
    (List.sorted_insertionSort byCombined _)
    (by decide)).1

/-- C4: for every non-empty payment-year list the consecutive-years
computation takes the distinct calendar years sorted ascending and returns
the length of the run starting at the earliest year in which each
subsequent year is exactly one more than the previous, stopping at the
first gap: the result is at least 1, bounded by the number of distinct
years, every position before the result continues the run from the
earliest year, the position at the result (when it exists) breaks it, and
payment years `[2019, 2020, 2021, 2023]` give 3, not 4. -/
theorem c4_consecutive_years_initial_run (ys : List ℕ) (hne : ys ≠ []) :
    1 ≤ calculate_consecutive_years ys ∧
    calculate_consecutive_years ys = consecRun (sortedUniqueYears ys) ∧
    List.Sorted (· ≤ ·) (sortedUniqueYears ys) ∧
    (sortedUniqueYears ys).Nodup ∧
    (∀ y, y ∈ sortedUniqueYears ys ↔ y ∈ ys) ∧
    consecRun (sortedUniqueYears ys) ≤ (sortedUniqueYears ys).length ∧
    (∀ i, i < consecRun (sortedUniqueYears ys) →
        (sortedUniqueYears ys).getD i 0 = (sortedUniqueYears ys).getD 0 0 + i) ∧
    (consecRun (sortedUniqueYears ys) < (sortedUniqueYears ys).length →
        (sortedUniqueYears ys).getD (consecRun (sortedUniqueYears ys)) 0
          ≠ (sortedUniqueYears ys).getD 0 0 + consecRun (sortedUniqueYears ys)) ∧
    calculate_consecutive_years [2019, 2020, 2021, 2023] = 3 := by
  have hcalc : calculate_consecutive_years ys = consecRun (sortedUniqueYears ys) := by
    rw [calculate_consecutive_years, if_neg hne]
  have hdne : ys.dedup ≠ [] := by
    rw [Ne, List.dedup_eq_nil]
    exact hne
  have hlen : sortedUniqueYears ys ≠ [] := by
    intro h
    have hl := List.length_insertionSort (fun a b : ℕ => a ≤ b) ys.dedup
    rw [sortedUniqueYears] at h
    rw [h] at hl
    simp only [List.length_nil] at hl
    exact hdne (List.length_eq_zero.mp hl.symm)
  refine ⟨?_, hcalc, ?_, ?_, ?_, consecRun_le_length _,
    consecRun_getD _, consecRun_gap _, by decide⟩
  · rw [hcalc]
    cases hcase : sortedUniqueYears ys with
    | nil => exact absurd hcase hlen
    | cons a l => exact consecRun_pos a l
  · exact List.sorted_insertionSort _ _
  · exact (List.perm_insertionSort (fun a b : ℕ => a ≤ b) ys.dedup).nodup_iff.mpr
      (List.nodup_dedup ys)
  · intro y
    rw [sortedUniqueYears,
      (List.perm_insertionSort (fun a b : ℕ => a ≤ b) ys.dedup).mem_iff,
      List.mem_dedup]

/-- Witness for C4: the spec's concrete example, evaluated: years
`[2019, 2020, 2021, 2023]` give 3 consecutive years. -/
theorem c4_consecutive_years_initial_run_witness :
    calculate_consecutive_years [2019, 2020, 2021, 2023] = 3 :=
  (c4_consecutive_years_initial_run [2019, 2020, 2021, 2023]
    (by decide)).2.2.2.2.2.2.2.2

/-- Counterexample to C5 as stated: in the v2 dividend script a symbol
with a nonzero yield, a nonzero price and an *empty* payment history is
Included (the claim says it must be Excluded with the insufficient-data
reason and that the consecutive-years calculation is never reached); the
v2 `analyze_stock` only checks yield and price, reaches
`calculate_consecutive_years` on the empty history and stores its result
0. -/
theorem c5_empty_history_included_counterexample :
    (DividendsV2.analyze_stock "AAA" (some ⟨2, 10, "A Corp", "Tech"⟩) []).status
        = "Incluída" ∧
    (DividendsV2.analyze_stock "AAA"
        (some ⟨2, 10, "A Corp", "Tech"⟩) []).consecutive_years = some 0 ∧
    calculate_consecutive_years [] = 0 := by
  refine ⟨?_, ?_, rfl⟩ <;>
    norm_num [DividendsV2.analyze_stock, calculate_consecutive_years]

/-- C5 amended: the three-way exclusion test (zero yield, zero price or
empty payment history) holds as claimed only in the v1 dividend script,
with reason `Dados insuficientes`; in the v2 script the exclusion with
reason `Dados insuficientes de dividendos` is equivalent to zero yield or
zero price only, and a symbol with nonzero yield and price but an empty
payment history is Included, the consecutive-years calculation being
reached and returning 0. -/
theorem c5_insufficient_dividend_exclusion_amended
    (t : String) (info : DividendsV2.RawInfo) (s : DividendsV2.StockInfo)
    (ys : List ℕ) :
    ((Dividends.calculate_yield_and_dividend_years t info ys).status = "Excluída"
        ↔ ys = [] ∨ info.dividendYield.getD 0 * 100 = 0
            ∨ info.currentPrice.getD 0 = 0) ∧
    ((ys = [] ∨ info.dividendYield.getD 0 * 100 = 0
            ∨ info.currentPrice.getD 0 = 0) →
        (Dividends.calculate_yield_and_dividend_years t info ys).missing_data
          = ["Dados insuficientes"]) ∧
    ((DividendsV2.analyze_stock t (some s) ys).status = "Excluída"
        ↔ s.dividend_yield = 0 ∨ s.current_price = 0) ∧
    ((s.dividend_yield = 0 ∨ s.current_price = 0) →
        (DividendsV2.analyze_stock t (some s) ys).missing_data
          = ["Dados insuficientes de dividendos"]) ∧
    (¬ (s.dividend_yield = 0 ∨ s.current_price = 0) → ys = [] →
        (DividendsV2.analyze_stock t (some s) ys).status = "Incluída" ∧
        (DividendsV2.analyze_stock t (some s) ys).consecutive_years = some 0) := by
  have hmul : ∀ q : ℚ, q * 100 = 0 ↔ q = 0 := fun q => by
    constructor
    · intro hq
      rcases mul_eq_zero.mp hq with h' | h'
      · exact h'
      · norm_num at h'
    · intro hq
      rw [hq, zero_mul]
  refine ⟨?_, ?_, ?_, ?_, ?_⟩
  · by_cases h : ys = [] ∨ info.dividendYield.getD 0 = 0
        ∨ info.currentPrice.getD 0 = 0
    · simp only [hmul]
      simp [Dividends.calculate_yield_and_dividend_years, h]
    · simp only [hmul]
      simp [Dividends.calculate_yield_and_dividend_years, h]
  · intro h
    rw [hmul] at h
    simp [Dividends.calculate_yield_and_dividend_years, h]
  · by_cases h : s.dividend_yield = 0 ∨ s.current_price = 0
    · simp [DividendsV2.analyze_stock, h]
    · simp [DividendsV2.analyze_stock, h]
  · intro h
    simp [DividendsV2.analyze_stock, h]
  · intro h hys
    subst hys
    simp [DividendsV2.analyze_stock, h, calculate_consecutive_years]

/-- Witness for the C5 amendment: a symbol with zero yield is excluded by
the v2 script with the insufficient-dividend-data reason. -/
theorem c5_insufficient_dividend_exclusion_amended_witness :
    (DividendsV2.analyze_stock "AAA" (some ⟨0, 10, "A Corp", "Tech"⟩) [2020]).missing_data
      = ["Dados insuficientes de dividendos"] :=
  (c5_insufficient_dividend_exclusion_amended "AAA" ⟨none, none, none, none⟩
    ⟨0, 10, "A Corp", "Tech"⟩ [2020]).2.2.2.1 (Or.inl rfl)

/-- C6: a `FundamentalsSnapshot` with all four factor metrics present is
Included by both Fatores scripts with the single component score
`-10·pe_ratio + 10·return_on_equity - 0.1·debt_to_equity + 100·dividend_yield`,
with no clamping and negative metric values used as-is (the formula is an
exact polynomial identity over ℚ, for arbitrary, possibly negative,
inputs). -/
theorem c6_factor_score_formula (pe roe dte dy : ℚ) (t : String) :
    Fatores.calculate_score ⟨some pe, some roe, some dte, some dy⟩
        = some (-10 * pe + 10 * roe - 0.1 * dte + 100 * dy) ∧
    FatoresV2.calculate_score t ⟨some pe, some roe, some dte, some dy⟩
        = some ⟨t, -10 * pe + 10 * roe - 0.1 * dte + 100 * dy⟩ := by
  constructor
  · rw [Fatores.calculate_score]
    simp only [Option.some.injEq]
    norm_num
    ring
  · rw [FatoresV2.calculate_score]
    simp only [Option.some.injEq, FatoresV2.StockScore.mk.injEq, true_and]
    norm_num
    ring

/-- C7: for the Magic Formula variant with all seven metrics present,
letting `net_fixed_assets = total_assets - current_assets`,
`working_capital = current_assets - current_liabilities` and
`enterprise_value = market_cap + total_debt - total_cash`, the outcome is
Excluded with the division-by-zero reason iff
`working_capital + net_fixed_assets = 0` or `enterprise_value = 0`
(these denominator checks applying only after the missing-metric check,
which takes priority and reports the absent keys instead), and otherwise
the symbol is Included with
`return_on_capital = EBIT / (working_capital + net_fixed_assets)` and
`earnings_yield = EBIT / enterprise_value`, both computed with nonzero
denominators. -/
theorem c7_magic_formula_zero_denominator (t : String)
    (ebit ta ca cl mc td tc : ℚ) :
    ((MagicFormulaV2.analyze_stock t
        ⟨some ebit, some ta, some ca, some cl, some mc, some td, some tc⟩).status
          = "Excluída"
        ↔ (ca - cl) + (ta - ca) = 0 ∨ mc + td - tc = 0) ∧
    (((ca - cl) + (ta - ca) = 0 ∨ mc + td - tc = 0) →
        MagicFormulaV2.analyze_stock t
            ⟨some ebit, some ta, some ca, some cl, some mc, some td, some tc⟩
          = ⟨t, "Excluída", none, none, ["Division by zero in calculations"]⟩) ∧
    ((ca - cl) + (ta - ca) ≠ 0 → mc + td - tc ≠ 0 →
        MagicFormulaV2.analyze_stock t
            ⟨some ebit, some ta, some ca, some cl, some mc, some td, some tc⟩
          = ⟨t, "Incluída", some (ebit / ((ca - cl) + (ta - ca))),
              some (ebit / (mc + td - tc)), []⟩) ∧
    (∀ d : MagicFormulaV2.StockData, MagicFormulaV2.missing_fields d ≠ [] →
        (MagicFormulaV2.analyze_stock t d).status = "Excluída" ∧
        (MagicFormulaV2.analyze_stock t d).missing_data
          = MagicFormulaV2.missing_fields d) := by
  have hmf : MagicFormulaV2.missing_fields
      ⟨some ebit, some ta, some ca, some cl, some mc, some td, some tc⟩ = [] := by
    simp [MagicFormulaV2.missing_fields]
  have key : (ca - cl) + (ta - ca) = ta - cl := by ring
  refine ⟨?_, ?_, ?_, ?_⟩
  · rw [key]
    by_cases h : ta - cl = 0 ∨ mc + td - tc = 0
    · simp [MagicFormulaV2.analyze_stock, MagicFormulaV2.calculate_metrics, hmf, h]
    · simp [MagicFormulaV2.analyze_stock, MagicFormulaV2.calculate_metrics, hmf, h]
  · rw [key]
    intro h
    simp [MagicFormulaV2.analyze_stock, MagicFormulaV2.calculate_metrics, hmf, h]
  · rw [key]
    intro h1 h2
    simp [MagicFormulaV2.analyze_stock, MagicFormulaV2.calculate_metrics, hmf, h1, h2]
  · intro d hne
    simp [MagicFormulaV2.analyze_stock, hne]

/-- Witness for C7: the division-by-zero exclusion at
`EBIT = 10, total_assets = 50, current_assets = 50, current_liabilities = 50,
market_cap = 100, total_debt = 20, total_cash = 20`, where
`working_capital + net_fixed_assets = 0`. -/
theorem c7_magic_formula_zero_denominator_witness :
    MagicFormulaV2.analyze_stock "T"
        ⟨some 10, some 50, some 50, some 50, some 100, some 20, some 20⟩
      = ⟨"T", "Excluída", none, none, ["Division by zero in calculations"]⟩ :=
  (c7_magic_formula_zero_denominator "T" 10 50 50 50 100 20 20).2.1 (by norm_num)

/-- Counterexample to C8 as stated: in the Factor variant an excluded
symbol does not appear in any reported run statistics, because that
variant produces none — its complete reported artifact is the
`(Rank, Ticker)` row list.  Concretely, `AAA` is excluded (its metrics are
absent) and the full output of the run is `[(1, "BBB")]`, which contains
no statistics and no mention of `AAA`; this refutes "always appears in
the reported run statistics … in all three model variants". -/
theorem c8_factor_no_statistics_counterexample :
    FatoresV2.calculate_score "AAA" ⟨none, none, none, none⟩ = none ∧
    FatoresV2.run_analysis
        [("AAA", ⟨none, none, none, none⟩), ("BBB", ⟨some 1, some 1, some 1, some 1⟩)]
      = some [(1, "BBB")] ∧
    "AAA" ∉ ([((1 : ℕ), "BBB")].map Prod.snd) := by
  refine ⟨rfl, rfl, ?_⟩
  decide

/-- C8 amended: an Excluded symbol never appears in the final ranking
rows, in all three variants (for the Factor variant: a symbol whose score
is `None` never appears in the reported rows); in the MagicFormula and
DividendQuality variants it moreover always appears in the run statistics,
listed with its reasons and counted in the total — but the Factor variant
emits no run statistics at all, so the statistics half of the claim holds
only for those two variants. -/
theorem c8_excluded_rows_and_statistics_amended :
    (∀ (results : List MagicFormulaV2.StockResult)
        (r : MagicFormulaV2.StockResult), r ∈ results → r.status = "Excluída" →
        (r.ticker, r.missing_data) ∈ (MagicFormulaV2.run_statistics results).details ∧
        (MagicFormulaV2.run_statistics results).total = results.length ∧
        ∀ rows, MagicFormulaV2.prepare_rankings results = some rows →
          (∀ t ∈ rows, t.1.status = "Incluída") ∧
          ((results.map (fun x => x.ticker)).Nodup →
            r.ticker ∉ rows.map (fun t => t.1.ticker))) ∧
    (∀ (results : List DividendsV2.DividendResult)
        (r : DividendsV2.DividendResult), r ∈ results → r.status = "Excluída" →
        (r.ticker, r.missing_data) ∈ (DividendsV2.run_statistics results).details ∧
        (DividendsV2.run_statistics results).total = results.length ∧
        ∀ rows, DividendsV2.prepare_rankings results = some rows →
          (∀ t ∈ rows, t.1.status = "Incluída") ∧
          ((results.map (fun x => x.ticker)).Nodup →
            r.ticker ∉ rows.map (fun t => t.1.ticker))) ∧
    (∀ (univ : List (String × Fatores.FactorInfo))
        (p : String × Fatores.FactorInfo), p ∈ univ →
        FatoresV2.calculate_score p.1 p.2 = none →
        ∀ rows, FatoresV2.run_analysis univ = some rows →
          ((univ.map Prod.fst).Nodup → p.1 ∉ rows.map Prod.snd)) := by
  refine ⟨?_, ?_, ?_⟩
  · intro results r hr hst
    have hrex : r ∈ MagicFormulaV2.excludedResults results := by
      rw [MagicFormulaV2.excludedResults]
      exact List.mem_filter.mpr ⟨hr, by simp [hst]⟩
    refine ⟨?_, rfl, ?_⟩
    · simp only [MagicFormulaV2.run_statistics]
      exact List.mem_map_of_mem _ hrex
    · intro rows hrows
      constructor
      · intro t ht
        exact (mf_row_included results rows hrows t ht).2
      · intro hnd hmem
        rcases List.mem_map.mp hmem with ⟨t, ht, hteq⟩
        rcases mf_row_included results rows hrows t ht with ⟨htr, hts⟩
        have heq : t.1 = r := List.inj_on_of_nodup_map hnd htr hr hteq
        rw [heq, hst] at hts
        exact absurd hts (by decide)
  · intro results r hr hst
    have hrex : r ∈ DividendsV2.excludedResults results := by
      rw [DividendsV2.excludedResults]
      exact List.mem_filter.mpr ⟨hr, by simp [hst]⟩
    refine ⟨?_, rfl, ?_⟩
    · simp only [DividendsV2.run_statistics]
      exact List.mem_map_of_mem _ hrex
    · intro rows hrows
      constructor
      · intro t ht
        exact (div_row_included results rows hrows t ht).2
      · intro hnd hmem
        rcases List.mem_map.mp hmem with ⟨t, ht, hteq⟩
        rcases div_row_included results rows hrows t ht with ⟨htr, hts⟩
        have heq : t.1 = r := List.inj_on_of_nodup_map hnd htr hr hteq
        rw [heq, hst] at hts
        exact absurd hts (by decide)
  · intro univ p hp hnone rows hrows hnd hmem
    rcases List.mem_map.mp hmem with ⟨x, hx, hxe⟩
    rcases fatores_row_ticker univ rows hrows x hx with ⟨q, hq, ⟨s, hs⟩, hqe⟩
    have heq : q = p := List.inj_on_of_nodup_map hnd hq hp (by rw [hqe, hxe])
    rw [heq] at hs
    rw [hnone] at hs
    exact absurd hs (by simp)

/-- Witness for the C8 amendment: in a concrete Magic Formula run the
excluded symbol `C` is listed with its reasons in the statistics. -/
theorem c8_excluded_rows_and_statistics_amended_witness :
    ("C", ["EBIT"]) ∈ (MagicFormulaV2.run_statistics
        [⟨"A", "Incluída", some 1, some 2, []⟩,
         ⟨"C", "Excluída", none, none, ["EBIT"]⟩]).details :=
  (c8_excluded_rows_and_statistics_amended.1
    [⟨"A", "Incluída", some 1, some 2, []⟩,
     ⟨"C", "Excluída", none, none, ["EBIT"]⟩]
    ⟨"C", "Excluída", none, none, ["EBIT"]⟩
    (by decide) rfl).1

/-- Counterexample to C9 as stated: in the v1 Magic Formula script a run
in which every symbol is excluded produces no output at all — the
statistics block sits inside the `if len(included) > 0` branch, so the
run returns `None` and the statistics recording the exclusions are never
emitted, against the claim that "the run statistics still record all
exclusions". -/
theorem c9_v1_all_excluded_no_statistics_counterexample :
    MagicFormula.main_model
        [⟨"AAA", "Excluída", none, none, ["Dados financeiros não disponíveis"]⟩]
      = none := rfl

/-- C9 amended: for the v2 Magic Formula pipeline a run with zero Included
symbols is a valid terminal state: `prepare_rankings` reports the empty
result `None`, while the always-printed statistics block still records all
exclusions, with the total symbol count equal to the excluded count; in
the v1 script the same all-excluded run instead skips the statistics block
and only returns `None`. -/
theorem c9_v2_empty_ranking_statistics_amended
    (results : List MagicFormulaV2.StockResult)
    (hall : ∀ r ∈ results, r.status = "Excluída") :
    MagicFormulaV2.prepare_rankings results = none ∧
    (MagicFormulaV2.run_statistics results).total
        = (MagicFormulaV2.run_statistics results).excluded ∧
    (MagicFormulaV2.run_statistics results).included = 0 ∧
    (MagicFormulaV2.run_statistics results).details
        = results.map (fun r => (r.ticker, r.missing_data)) ∧
    MagicFormula.main_model results = none := by
  have hinc : MagicFormulaV2.includedResults results = [] := by
    rw [MagicFormulaV2.includedResults, List.filter_eq_nil_iff]
    intro r hr
    simp [hall r hr]
  have hexc : MagicFormulaV2.excludedResults results = results := by
    rw [MagicFormulaV2.excludedResults, List.filter_eq_self]
    intro r hr
    simp [hall r hr]
  refine ⟨?_, ?_, ?_, ?_, ?_⟩
  · simp [MagicFormulaV2.prepare_rankings, hinc]
  · simp [MagicFormulaV2.run_statistics, hexc]
  · simp [MagicFormulaV2.run_statistics, hexc]
  · simp [MagicFormulaV2.run_statistics, hexc]
  · simp [MagicFormula.main_model, hinc]

/-- Witness for the C9 amendment: a concrete all-excluded run, where the
ranking is empty and the statistics still list the exclusion. -/
theorem c9_v2_empty_ranking_statistics_amended_witness :
    MagicFormulaV2.prepare_rankings
        [⟨"AAA", "Excluída", none, none, ["EBIT"]⟩] = none ∧
    (MagicFormulaV2.run_statistics
        [⟨"AAA", "Excluída", none, none, ["EBIT"]⟩]).total
      = (MagicFormulaV2.run_statistics
        [⟨"AAA", "Excluída", none, none, ["EBIT"]⟩]).excluded :=
  ⟨(c9_v2_empty_ranking_statistics_amended
      [⟨"AAA", "Excluída", none, none, ["EBIT"]⟩] (by decide)).1,
   (c9_v2_empty_ranking_statistics_amended
      [⟨"AAA", "Excluída", none, none, ["EBIT"]⟩] (by decide)).2.1⟩

/-- Counterexample to C10's tie clause: raw provider yields `0.012349`
and `0.012351` differ by `0.0002` percentage points (far below `0.005`),
yet they round to `1.23` and `1.24` respectively, and the fractional
descending ranks of those rounded components in a two-symbol universe are
2 and 1 — not tied.  Closeness below half a cent does not guarantee a tie
when the two values straddle a rounding boundary. -/
theorem c10_rounding_boundary_rank_counterexample :
    (DividendsV2.get_stock_info
        ⟨some (12349 / 1000000), some 10, none, none⟩).dividend_yield
      = 12349 / 10000 ∧
    (DividendsV2.get_stock_info
        ⟨some (12351 / 1000000), some 10, none, none⟩).dividend_yield
      = 12351 / 10000 ∧
    ((12351 / 10000 : ℚ) - 12349 / 10000 < 5 / 1000) ∧
    pyRound2 (12349 / 10000) = 123 / 100 ∧
    pyRound2 (12351 / 10000) = 124 / 100 ∧
    fracRankDesc [123 / 100, 124 / 100] (123 / 100) = 2 ∧
    fracRankDesc [123 / 100, 124 / 100] (124 / 100) = 1 ∧
    (2 : ℚ) ≠ 1 := by
  refine ⟨?_, ?_, by norm_num, ?_, ?_, ?_, ?_, by norm_num⟩
  · norm_num [DividendsV2.get_stock_info]
  · norm_num [DividendsV2.get_stock_info]
  · norm_num [pyRound2, roundHalfEven]
  · norm_num [pyRound2, roundHalfEven]
  · norm_num [fracRankDesc, countGtQ, countEqQ, List.countP_cons]
  · norm_num [fracRankDesc, countGtQ, countEqQ, List.countP_cons]

/-- C10 amended: the `dividend_yield` rank component of an Included symbol
of the DividendQuality v2 variant equals the provider's fractional yield
multiplied by 100 (an absent yield defaulting to 0) and rounded to two
decimal places by Python's `round`, and the fractional ranking is applied
to this rounded percentage; consequently two symbols whose *rounded*
percentages coincide receive tied fractional ranks (raw yields differing
by less than 0.005 percentage points need not tie when they straddle a
rounding boundary, as the counterexample shows). -/
theorem c10_rounded_yield_component_amended
    (t : String) (s : DividendsV2.StockInfo) (ys : List ℕ)
    (raw pr : Option ℚ) (nm sec : Option String) (xs : List ℚ) (y1 y2 : ℚ)
    (results : List DividendsV2.DividendResult) :
    (DividendsV2.get_stock_info ⟨raw, pr, nm, sec⟩).dividend_yield
        = raw.getD 0 * 100 ∧
    (DividendsV2.get_stock_info ⟨none, pr, nm, sec⟩).dividend_yield = 0 ∧
    (¬ (s.dividend_yield = 0 ∨ s.current_price = 0) →
        (DividendsV2.analyze_stock t (some s) ys).dividend_yield
          = some (pyRound2 s.dividend_yield)) ∧
    (pyRound2 y1 = pyRound2 y2 →
        fracRankDesc xs (pyRound2 y1) = fracRankDesc xs (pyRound2 y2)) ∧
    (∀ r ∈ DividendsV2.includedResults results,
        (r, (fracRankDesc ((DividendsV2.includedResults results).map
                (fun x => x.dividend_yield.getD 0)) (r.dividend_yield.getD 0)
              + fracRankDesc ((DividendsV2.includedResults results).map
                (fun x => ((x.consecutive_years.getD 0 : ℕ) : ℚ)))
                ((r.consecutive_years.getD 0 : ℕ) : ℚ)) / 2)
          ∈ DividendsV2.combinedRankRows results) := by
  refine ⟨rfl, ?_, ?_, ?_, ?_⟩
  · simp [DividendsV2.get_stock_info]
  · intro h
    simp [DividendsV2.analyze_stock, h]
  · intro h
    rw [h]
  · intro r hr
    simp only [DividendsV2.combinedRankRows]
    exact List.mem_map.mpr ⟨r, hr, rfl⟩

/-- Witness for the C10 amendment: raw percentages `1.201` and `1.204`
both round to `1.20`, so their fractional ranks in any component series
coincide. -/
theorem c10_rounded_yield_component_amended_witness :
    fracRankDesc [(120 / 100 : ℚ), 1 / 2] (pyRound2 (1201 / 1000))
      = fracRankDesc [(120 / 100 : ℚ), 1 / 2] (pyRound2 (1204 / 1000)) :=
  (c10_rounded_yield_component_amended "T" ⟨1, 1, "N", "S"⟩ []
    none none none none [(120 / 100 : ℚ), 1 / 2] (1201 / 1000) (1204 / 1000)
    []).2.2.2.1 (by norm_num [pyRound2, roundHalfEven])
